import Mathlib

set_option autoImplicit false

/-!
Shallow embedding of the toast-notification lifecycle machine from
src/hooks/useToastAnimation.ts (the hook wired into ToastItem.tsx), of the
canClose predicate from src/hooks/useToastPhase.ts, and of the
requestAnimationFrame based one-shot timer from src/utils/rafTimer.ts.

Timestamps are modelled as integers (milliseconds, the resolution the spec
speaks about). Mutable refs become fields of an explicit state record; the
requestAnimationFrame machinery is modelled by a rafPending flag: a tick
event has an effect only while a frame callback is scheduled, and the loop
reschedules itself unless the toast has been removed. Invocations of the
removal callback are collected as (time, id) pairs.
-/

namespace Toast

/-- Lifecycle phase of a toast, as the Phase union type of
useToastAnimation.ts: "entering" | "running" | "paused" | "exiting". -/
inductive Phase where
  | entering
  | running
  | paused
  | exiting
deriving DecidableEq, Repr, Fintype

/-- Construction-time configuration of one useToastAnimation instance: the
duration before auto-dismiss and the toastId passed to onRemove. -/
structure Config where
  duration : Int
  toastId : String
deriving DecidableEq, Repr

/-- EXIT_ANIMATION_DURATION constant (ms) from useToastAnimation.ts. -/
def EXIT_ANIMATION_DURATION : Int := 300

/-- State of one useToastAnimation instance: phaseRef, the isVisible React
state, startRef, elapsedRef, exitStartRef, removedRef, and whether a
requestAnimationFrame callback is currently scheduled through rafRef. -/
structure ToastState where
  phase : Phase
  isVisible : Bool
  start : Option Int
  elapsed : Int
  exitStart : Option Int
  removed : Bool
  rafPending : Bool
deriving DecidableEq, Repr

/-- State right after mount: phaseRef = "entering", isVisible = false, all
timing refs unset, and the effect has scheduled the first frame. -/
def initState : ToastState :=
  { phase := .entering, isVisible := false, start := none, elapsed := 0,
    exitStart := none, removed := false, rafPending := true }

/-- The setPhase helper of the effect: store the next phase and drive the
isVisible state (true on "running", false on "exiting"). -/
def setPhase (next : Phase) (s : ToastState) : ToastState :=
  let s1 := { s with phase := next }
  let s2 := if next = Phase.running then { s1 with isVisible := true } else s1
  if next = Phase.exiting then { s2 with isVisible := false } else s2

/-- handleRunning: record the start of the current running segment if unset;
when the accumulated total reaches the duration, clear the start, record the
exit start and transition to "exiting". -/
def handleRunning (duration now : Int) (s : ToastState) : ToastState :=
  let start := s.start.getD now
  let total := s.elapsed + (now - start)
  if duration ≤ total then
    setPhase .exiting { s with start := none, exitStart := some now }
  else
    { s with start := some start }

/-- handleExit: once the exit window has elapsed since exitStart, fire the
removal callback, guarded by removedRef so that it fires at most once. The
second component records the (time, id) of the onRemove invocation. -/
def handleExit (cfg : Config) (now : Int) (s : ToastState) :
    ToastState × Option (Int × String) :=
  match s.exitStart with
  | none => (s, none)
  | some e =>
    if EXIT_ANIMATION_DURATION ≤ now - e then
      if s.removed then (s, none)
      else ({ s with removed := true }, some (now, cfg.toastId))
    else (s, none)

/-- One body of the requestAnimationFrame loop: dispatch on the current
phase, then reschedule the next frame unless the toast has been removed. -/
def loop (cfg : Config) (now : Int) (s : ToastState) :
    ToastState × Option (Int × String) :=
  let p :=
    match s.phase with
    | .entering => (setPhase .running s, none)
    | .running => (handleRunning cfg.duration now s, none)
    | .paused => (s, none)
    | .exiting => handleExit cfg now s
  ({ p.1 with rafPending := !p.1.removed }, p.2)

/-- A scheduling tick: the browser runs the pending frame callback at time
now. When no frame is pending (after teardown, or once the toast has been
removed), nothing happens. -/
def tick (cfg : Config) (now : Int) (s : ToastState) :
    ToastState × Option (Int × String) :=
  if s.rafPending then loop cfg now s else (s, none)

/-- handleMouseEnter: only in the "running" phase and only with a recorded
segment start does it bank the elapsed time, clear the start and move to
"paused"; otherwise it returns early leaving the state unchanged. -/
def handleMouseEnter (now : Int) (s : ToastState) : ToastState :=
  if s.phase ≠ Phase.running then s
  else
    match s.start with
    | none => s
    | some st =>
      { s with
        elapsed := s.elapsed + (now - st)
        start := none
        phase := .paused }

/-- handleMouseLeave: only from "paused" back to "running"; the accumulator
resumes on the next scheduling tick. -/
def handleMouseLeave (s : ToastState) : ToastState :=
  if s.phase ≠ Phase.paused then s
  else { s with phase := .running }

/-- handleClose: ignored while "exiting"; otherwise it immediately records
the exit-window start, transitions to "exiting" and hides the toast. -/
def handleClose (now : Int) (s : ToastState) : ToastState :=
  if s.phase = Phase.exiting then s
  else { s with exitStart := some now, phase := .exiting, isVisible := false }

/-- Effect cleanup: cancelAnimationFrame on the pending frame, if any. -/
def teardown (s : ToastState) : ToastState :=
  { s with rafPending := false }

/-- External stimulus of one instance: a scheduling tick at a wall-clock
time, the hover and close handlers, or the effect cleanup. -/
inductive Event where
  | tick (now : Int)
  | mouseEnter (now : Int)
  | mouseLeave
  | close (now : Int)
  | teardown
deriving DecidableEq, Repr

/-- Apply one event; the second component is the onRemove invocation (time
and id) the event produced, if any. -/
def step (cfg : Config) (ev : Event) (s : ToastState) :
    ToastState × Option (Int × String) :=
  match ev with
  | .tick now => tick cfg now s
  | .mouseEnter now => (handleMouseEnter now s, none)
  | .mouseLeave => (handleMouseLeave s, none)
  | .close now => (handleClose now s, none)
  | .teardown => (teardown s, none)

/-- Run a sequence of events, collecting every onRemove invocation in
order. -/
def run (cfg : Config) (evs : List Event) (s : ToastState) :
    ToastState × List (Int × String) :=
  match evs with
  | [] => (s, [])
  | ev :: rest =>
    let p := step cfg ev s
    let q := run cfg rest p.1
    (q.1, p.2.toList ++ q.2)

/-- The canPause predicate of useToastPhase.ts. -/
def canPause (p : Phase) : Bool := p == Phase.running

/-- The canResume predicate of useToastPhase.ts. -/
def canResume (p : Phase) : Bool := p == Phase.paused

/-- The canClose predicate of useToastPhase.ts: the current phase is not
"exiting". -/
def canClose (p : Phase) : Bool := p != Phase.exiting

example : (run ⟨3000, "t"⟩ [.tick 0, .tick 0, .tick 3000, .tick 3300]
    initState).2 = [(3300, "t")] := by decide

lemma setPhase_running (s : ToastState) :
    setPhase .running s = { s with phase := .running, isVisible := true } := by
  simp [setPhase]

lemma setPhase_exiting (s : ToastState) :
    setPhase .exiting s = { s with phase := .exiting, isVisible := false } := by
  simp [setPhase]

lemma handleRunning_expired (d now : Int) (s : ToastState)
    (h : d ≤ s.elapsed + (now - s.start.getD now)) :
    handleRunning d now s =
      { s with
        start := none
        exitStart := some now
        phase := .exiting
        isVisible := false } := by
  simp [handleRunning, h, setPhase_exiting]

lemma handleRunning_live (d now : Int) (s : ToastState)
    (h : ¬ d ≤ s.elapsed + (now - s.start.getD now)) :
    handleRunning d now s = { s with start := some (s.start.getD now) } := by
  simp [handleRunning, h]

lemma handleRunning_removed (d now : Int) (s : ToastState) :
    (handleRunning d now s).removed = s.removed := by
  by_cases h : d ≤ s.elapsed + (now - s.start.getD now)
  · rw [handleRunning_expired d now s h]
  · rw [handleRunning_live d now s h]

lemma handleExit_unset (cfg : Config) (now : Int) (s : ToastState)
    (h : s.exitStart = none) : handleExit cfg now s = (s, none) := by
  simp [handleExit, h]

lemma handleExit_early (cfg : Config) (now e : Int) (s : ToastState)
    (h : s.exitStart = some e) (hlt : ¬ EXIT_ANIMATION_DURATION ≤ now - e) :
    handleExit cfg now s = (s, none) := by
  simp [handleExit, h, hlt]

lemma handleExit_fire (cfg : Config) (now e : Int) (s : ToastState)
    (h : s.exitStart = some e) (hle : EXIT_ANIMATION_DURATION ≤ now - e)
    (hrem : s.removed = false) :
    handleExit cfg now s =
      ({ s with removed := true }, some (now, cfg.toastId)) := by
  simp [handleExit, h, hle, hrem]

lemma handleExit_fired (cfg : Config) (now e : Int) (s : ToastState)
    (h : s.exitStart = some e) (hle : EXIT_ANIMATION_DURATION ≤ now - e)
    (hrem : s.removed = true) :
    handleExit cfg now s = (s, none) := by
  simp [handleExit, h, hle, hrem]

lemma loop_entering (cfg : Config) (now : Int) (s : ToastState)
    (h : s.phase = .entering) :
    loop cfg now s = ({ s with
      phase := .running
      isVisible := true
      rafPending := !s.removed }, none) := by
  simp [loop, h, setPhase_running]

lemma loop_running (cfg : Config) (now : Int) (s : ToastState)
    (h : s.phase = .running) :
    loop cfg now s = ({ handleRunning cfg.duration now s with
      rafPending := !s.removed }, none) := by
  simp [loop, h, handleRunning_removed]

lemma loop_paused (cfg : Config) (now : Int) (s : ToastState)
    (h : s.phase = .paused) :
    loop cfg now s = ({ s with rafPending := !s.removed }, none) := by
  simp [loop, h]

lemma loop_exiting (cfg : Config) (now : Int) (s : ToastState)
    (h : s.phase = .exiting) :
    loop cfg now s = ({ (handleExit cfg now s).1 with
      rafPending := !(handleExit cfg now s).1.removed },
      (handleExit cfg now s).2) := by
  simp [loop, h]

lemma tick_pending (cfg : Config) (now : Int) (s : ToastState)
    (h : s.rafPending = true) : tick cfg now s = loop cfg now s := by
  simp [tick, h]

lemma tick_idle (cfg : Config) (now : Int) (s : ToastState)
    (h : s.rafPending = false) : tick cfg now s = (s, none) := by
  simp [tick, h]

lemma step_fire (cfg : Config) (ev : Event) (s : ToastState) (r : Int × String)
    (h : (step cfg ev s).2 = some r) :
    ∃ now e, ev = Event.tick now ∧ s.phase = Phase.exiting ∧
      s.removed = false ∧ s.exitStart = some e ∧
      EXIT_ANIMATION_DURATION ≤ now - e ∧ r = (now, cfg.toastId) := by
  obtain ⟨ph, vis, st, el, ex, rem, raf⟩ := s
  cases ev with
  | tick now =>
    refine ⟨now, ?_⟩
    cases raf <;> cases ph <;> cases rem <;> cases ex <;>
      simp_all [step, tick, loop, handleExit, setPhase, handleRunning]
    case true.exiting.false.some e =>
      split_ifs at h with hle
      all_goals simp_all
  | mouseEnter now => simp [step] at h
  | mouseLeave => simp [step] at h
  | close now => simp [step] at h
  | teardown => simp [step] at h

lemma step_removed_of_fire (cfg : Config) (ev : Event) (s : ToastState)
    (r : Int × String) (h : (step cfg ev s).2 = some r) :
    (step cfg ev s).1.removed = true := by
  obtain ⟨ph, vis, st, el, ex, rem, raf⟩ := s
  cases ev with
  | tick now =>
    cases raf <;> cases ph <;> cases rem <;> cases ex <;>
      simp_all [step, tick, loop, handleExit, setPhase, handleRunning] <;>
      split_ifs at h ⊢ <;> simp_all
  | mouseEnter now => simp [step] at h
  | mouseLeave => simp [step] at h
  | close now => simp [step] at h
  | teardown => simp [step] at h

lemma step_removed_of_silent (cfg : Config) (ev : Event) (s : ToastState)
    (h : (step cfg ev s).2 = none) :
    (step cfg ev s).1.removed = s.removed := by
  obtain ⟨ph, vis, st, el, ex, rem, raf⟩ := s
  cases ev with
  | tick now =>
    cases raf <;> cases ph <;> cases rem <;> cases ex <;>
      simp_all [step, tick, loop, handleExit, setPhase, handleRunning] <;>
      split <;> simp_all
  | mouseEnter now =>
    cases ph <;> cases st <;> simp [step, handleMouseEnter]
  | mouseLeave => cases ph <;> simp [step, handleMouseLeave]
  | close now => cases ph <;> simp [step, handleClose]
  | teardown => simp [step, teardown]

lemma step_silent_of_removed (cfg : Config) (ev : Event) (s : ToastState)
    (h : s.removed = true) : (step cfg ev s).2 = none := by
  cases hp : (step cfg ev s).2 with
  | none => rfl
  | some r =>
    obtain ⟨now, e, _, _, hrem, _⟩ := step_fire cfg ev s r hp
    rw [h] at hrem
    exact absurd hrem (by simp)

lemma run_silent_of_removed (cfg : Config) (evs : List Event) :
    ∀ s : ToastState, s.removed = true → (run cfg evs s).2 = [] := by
  induction evs with
  | nil => intro s _; rfl
  | cons ev rest ih =>
    intro s h
    have h1 := step_silent_of_removed cfg ev s h
    have h2 : (step cfg ev s).1.removed = true := by
      rw [step_removed_of_silent cfg ev s h1]; exact h
    simp [run, h1, ih (step cfg ev s).1 h2]

lemma run_fires_length (cfg : Config) (evs : List Event) :
    ∀ s : ToastState, s.removed = false → (run cfg evs s).2.length ≤ 1 := by
  induction evs with
  | nil => intro s _; simp [run]
  | cons ev rest ih =>
    intro s h
    cases hp : (step cfg ev s).2 with
    | none =>
      have h1 : (step cfg ev s).1.removed = false := by
        rw [step_removed_of_silent cfg ev s hp]; exact h
      simp [run, hp, ih (step cfg ev s).1 h1]
    | some r =>
      have h1 := step_removed_of_fire cfg ev s r hp
      simp [run, hp, run_silent_of_removed cfg rest (step cfg ev s).1 h1]

lemma run_fires_id (cfg : Config) (evs : List Event) :
    ∀ s : ToastState, ∀ r ∈ (run cfg evs s).2, r.2 = cfg.toastId := by
  induction evs with
  | nil => intro s r hr; simp [run] at hr
  | cons ev rest ih =>
    intro s r hr
    simp only [run, List.mem_append] at hr
    rcases hr with hr | hr
    · cases hp : (step cfg ev s).2 with
      | none => simp [hp] at hr
      | some q =>
        obtain ⟨now, e, _, _, _, _, _, hq⟩ := step_fire cfg ev s q hp
        simp [hp] at hr
        rw [hr, hq]
    · exact ih (step cfg ev s).1 r hr

lemma step_exiting_entry (cfg : Config) (ev : Event) (s : ToastState)
    (h1 : s.phase ≠ Phase.exiting) (h2 : (step cfg ev s).1.phase = Phase.exiting) :
    ∃ now, (step cfg ev s).1.exitStart = some now ∧
      (ev = Event.close now ∨ (ev = Event.tick now ∧ s.phase = Phase.running ∧
        cfg.duration ≤ s.elapsed + (now - s.start.getD now))) := by
  obtain ⟨ph, vis, st, el, ex, rem, raf⟩ := s
  cases ev with
  | tick now =>
    refine ⟨now, ?_⟩
    cases raf with
    | false => simp_all [step, tick]
    | true =>
      cases ph with
      | entering => simp_all [step, tick, loop, setPhase]
      | running =>
        by_cases hd : cfg.duration ≤ el + (now - Option.getD st now)
        · simp only [step]
          rw [tick_pending _ _ _ rfl, loop_running _ _ _ rfl,
            handleRunning_expired _ _ _ (by simpa using hd)]
          refine ⟨rfl, Or.inr ?_⟩
          simpa using hd
        · simp only [step] at h2
          rw [tick_pending _ _ _ rfl, loop_running _ _ _ rfl,
            handleRunning_live _ _ _ (by simpa using hd)] at h2
          simp at h2
      | paused => simp_all [step, tick, loop]
      | exiting => simp_all
  | mouseEnter now =>
    cases ph <;> cases st <;> simp_all [step, handleMouseEnter]
  | mouseLeave => cases ph <;> simp_all [step, handleMouseLeave]
  | close now =>
    refine ⟨now, ?_⟩
    cases ph <;> simp_all [step, handleClose]
  | teardown => simp_all [step, teardown]

/-- C1: over any event sequence from mount, the removal callback fires at
most once and always with the construction-time toastId; a firing happens
only at a scheduling tick in the "exiting" phase once the fixed exit window
has elapsed since exitStart; and the "exiting" phase is entered only through
a manual close or through a tick at which the accumulated active time has
reached the duration, recording that moment as the exit-window start. -/
theorem c1_onRemove_once_after_duration_and_exit_window
    (cfg : Config) (evs : List Event) :
    (run cfg evs initState).2.length ≤ 1 ∧
    (∀ r ∈ (run cfg evs initState).2, r.2 = cfg.toastId) ∧
    (∀ ev s r, (step cfg ev s).2 = some r →
      ∃ now e, ev = Event.tick now ∧ s.phase = Phase.exiting ∧
        s.removed = false ∧ s.exitStart = some e ∧
        EXIT_ANIMATION_DURATION ≤ now - e ∧ r = (now, cfg.toastId)) ∧
    (∀ ev s, s.phase ≠ Phase.exiting → (step cfg ev s).1.phase = Phase.exiting →
      ∃ now, (step cfg ev s).1.exitStart = some now ∧
        (ev = Event.close now ∨ (ev = Event.tick now ∧ s.phase = Phase.running ∧
          cfg.duration ≤ s.elapsed + (now - s.start.getD now)))) :=
  ⟨run_fires_length cfg evs initState rfl, run_fires_id cfg evs initState,
    fun ev s r h => step_fire cfg ev s r h,
    fun ev s h1 h2 => step_exiting_entry cfg ev s h1 h2⟩

/-- Witness for C1 at a concrete lifecycle: duration 3000, ticks at 0, 0,
3000 and 3300; the firing tick satisfies the firing condition, and a manual
close at 500 satisfies the exiting-entry condition. -/
theorem c1_witness :
    (∃ now e, Event.tick 3300 = Event.tick now ∧
      (⟨Phase.exiting, false, none, 0, some 3000, false, true⟩ :
        ToastState).phase = Phase.exiting ∧
      (⟨Phase.exiting, false, none, 0, some 3000, false, true⟩ :
        ToastState).removed = false ∧
      (⟨Phase.exiting, false, none, 0, some 3000, false, true⟩ :
        ToastState).exitStart = some e ∧
      EXIT_ANIMATION_DURATION ≤ now - e ∧
      ((3300 : Int), "t") = (now, Config.toastId ⟨3000, "t"⟩)) ∧
    (∃ now,
      (step ⟨3000, "t"⟩ (Event.close 500) initState).1.exitStart = some now ∧
      (Event.close 500 = Event.close now ∨
        (Event.close 500 = Event.tick now ∧
          initState.phase = Phase.running ∧
          (3000 : Int) ≤ initState.elapsed +
            (now - initState.start.getD now)))) :=
  ⟨(c1_onRemove_once_after_duration_and_exit_window ⟨3000, "t"⟩ []).2.2.1
      (Event.tick 3300) ⟨Phase.exiting, false, none, 0, some 3000, false, true⟩
      (3300, "t") (by decide),
    (c1_onRemove_once_after_duration_and_exit_window ⟨3000, "t"⟩ []).2.2.2
      (Event.close 500) initState (by decide) (by decide)⟩

lemma step_no_raf (cfg : Config) (ev : Event) (s : ToastState)
    (h : s.rafPending = false) :
    (step cfg ev s).2 = none ∧ (step cfg ev s).1.rafPending = false := by
  obtain ⟨ph, vis, st, el, ex, rem, raf⟩ := s
  cases ev with
  | tick now => simp_all [step, tick]
  | mouseEnter now => cases ph <;> cases st <;> simp_all [step, handleMouseEnter]
  | mouseLeave => cases ph <;> simp_all [step, handleMouseLeave]
  | close now => cases ph <;> simp_all [step, handleClose]
  | teardown => simp_all [step, teardown]

lemma run_no_raf (cfg : Config) (evs : List Event) :
    ∀ s : ToastState, s.rafPending = false → (run cfg evs s).2 = [] := by
  induction evs with
  | nil => intro s _; rfl
  | cons ev rest ih =>
    intro s h
    obtain ⟨h1, h2⟩ := step_no_raf cfg ev s h
    simp [run, h1, ih (step cfg ev s).1 h2]

/-- C2: the effect cleanup itself never invokes the removal callback, and
after it has cancelled the pending frame no later event sequence — however
far its tick times advance — ever produces an onRemove invocation. -/
theorem c2_teardown_silences (cfg : Config) (s : ToastState)
    (evs : List Event) :
    (step cfg Event.teardown s).2 = none ∧
    (run cfg evs (step cfg Event.teardown s).1).2 = [] :=
  ⟨rfl, run_no_raf cfg evs (step cfg Event.teardown s).1 rfl⟩

/-- Event block of one hover cycle: the pointer enters at time p, leaves,
and the next scheduling tick at time q restarts the running segment. -/
def hoverBlock (p q : Int) : List Event :=
  [Event.mouseEnter p, Event.mouseLeave, Event.tick q]

/-- Events of a list of hover (pause, resume) time pairs. -/
def hoverEvents : List (Int × Int) → List Event
  | [] => []
  | (p, q) :: rest => hoverBlock p q ++ hoverEvents rest

/-- Total paused wall-clock time of the hover pairs. -/
def pausedSum : List (Int × Int) → Int
  | [] => 0
  | (p, q) :: rest => (q - p) + pausedSum rest

/-- Total active wall-clock time banked by the pauses, for a running segment
that began at r. -/
def activeSum : Int → List (Int × Int) → Int
  | _, [] => 0
  | r, (p, q) :: rest => (p - r) + activeSum q rest

/-- Start time of the final running segment. -/
def lastResume : Int → List (Int × Int) → Int
  | r, [] => r
  | _, (_, q) :: rest => lastResume q rest

/-- Chronological hover pairs for a running segment started at r with e
active milliseconds already banked: each pause comes after the segment
start, each resume after its pause, and every pause strictly before the
duration d expires. -/
def chrono (d : Int) : Int → Int → List (Int × Int) → Bool
  | _, _, [] => true
  | r, e, (p, q) :: rest =>
    decide (r ≤ p) && decide (p ≤ q) && decide (e + (p - r) < d) &&
      chrono d q (e + (p - r)) rest

/-- A live mid-run state: running since time r, with e active milliseconds
already banked. -/
def runningState (r e : Int) : ToastState :=
  { phase := .running, isVisible := true, start := some r, elapsed := e,
    exitStart := none, removed := false, rafPending := true }

lemma run_append (cfg : Config) (l1 l2 : List Event) (s : ToastState) :
    run cfg (l1 ++ l2) s =
      ((run cfg l2 (run cfg l1 s).1).1,
        (run cfg l1 s).2 ++ (run cfg l2 (run cfg l1 s).1).2) := by
  induction l1 generalizing s with
  | nil => simp [run]
  | cons ev rest ih => simp [run, ih]

lemma run_hoverBlock (cfg : Config) (p q r e : Int)
    (h : e + (p - r) < cfg.duration) :
    run cfg (hoverBlock p q) (runningState r e) =
      (runningState q (e + (p - r)), []) := by
  have hq : ¬ cfg.duration ≤ e + (p - r) + (q - q) := by omega
  have hq2 : ¬ cfg.duration ≤ e + (p - r) := by omega
  simp [hoverBlock, run, step, handleMouseEnter, handleMouseLeave, tick,
    loop, handleRunning, runningState, hq, hq2]

lemma run_hoverEvents (cfg : Config) (pairs : List (Int × Int)) :
    ∀ r e, chrono cfg.duration r e pairs = true →
      run cfg (hoverEvents pairs) (runningState r e) =
        (runningState (lastResume r pairs) (e + activeSum r pairs), []) := by
  induction pairs with
  | nil => intro r e _; simp [hoverEvents, run, lastResume, activeSum]
  | cons pq rest ih =>
    intro r e hch
    obtain ⟨p, q⟩ := pq
    simp only [chrono, Bool.and_eq_true, decide_eq_true_eq] at hch
    obtain ⟨⟨⟨h1, h2⟩, h3⟩, h4⟩ := hch
    have hblock := run_hoverBlock cfg p q r e h3
    have hassoc : e + (p - r) + activeSum q rest =
        e + ((p - r) + activeSum q rest) := by ring
    rw [hoverEvents, run_append, hblock]
    simp [lastResume, activeSum, ih q (e + (p - r)) h4, hassoc]

lemma lastResume_eq (pairs : List (Int × Int)) :
    ∀ r, lastResume r pairs = r + activeSum r pairs + pausedSum pairs := by
  induction pairs with
  | nil => intro r; simp [lastResume, activeSum, pausedSum]
  | cons pq rest ih =>
    intro r
    obtain ⟨p, q⟩ := pq
    simp only [lastResume, activeSum, pausedSum, ih q]
    ring

/-- Canonical tick schedule for duration d and the given hover pairs: the
mount tick, the tick starting the first running segment, the hover blocks,
the tick at which the accumulated active time reaches d, and the tick
closing the exit window. -/
def c3Events (d : Int) (pairs : List (Int × Int)) : List Event :=
  [Event.tick 0, Event.tick 0] ++ hoverEvents pairs ++
    [Event.tick (pausedSum pairs + d),
      Event.tick (pausedSum pairs + d + EXIT_ANIMATION_DURATION)]

/-- C3: for any positive duration and any chronological sequence of hover
pairs that all occur before expiry, the single onRemove invocation happens
at exactly (sum of paused intervals) + duration + 300 ms after mount, and
the banked active time in the final state is exactly the sum of the
running-segment lengths — no drift however many pause/resume cycles ran. -/
theorem c3_total_time_to_removal (d : Int) (id : String)
    (pairs : List (Int × Int)) (hd : 0 < d)
    (hch : chrono d 0 0 pairs = true) :
    run ⟨d, id⟩ (c3Events d pairs) initState =
      ({ phase := .exiting, isVisible := false, start := none,
         elapsed := activeSum 0 pairs,
         exitStart := some (pausedSum pairs + d), removed := true,
         rafPending := false },
        [(pausedSum pairs + d + EXIT_ANIMATION_DURATION, id)]) := by
  have h1 : run ⟨d, id⟩ [Event.tick 0, Event.tick 0] initState =
      (runningState 0 0, []) := by
    have hn : ¬ d ≤ (0 : Int) := by omega
    have hn2 : ¬ d ≤ (0 : Int) + ((0 : Int) - 0) := by omega
    simp [run, step, tick, loop, initState, setPhase, handleRunning,
      runningState, hn, hn2]
  have h2 := run_hoverEvents ⟨d, id⟩ pairs 0 0 hch
  simp only [zero_add] at h2
  have hR := lastResume_eq pairs 0
  have hs1 : step (⟨d, id⟩ : Config) (Event.tick (pausedSum pairs + d))
      (runningState (lastResume 0 pairs) (activeSum 0 pairs)) =
      (⟨Phase.exiting, false, none, activeSum 0 pairs,
        some (pausedSum pairs + d), false, true⟩, none) := by
    show tick _ _ _ = _
    rw [tick_pending _ _ _ rfl, loop_running _ _ _ rfl,
      handleRunning_expired _ _ _ (by simp [runningState]; omega)]
    rfl
  have hs2 : step (⟨d, id⟩ : Config)
      (Event.tick (pausedSum pairs + d + EXIT_ANIMATION_DURATION))
      ⟨Phase.exiting, false, none, activeSum 0 pairs,
        some (pausedSum pairs + d), false, true⟩ =
      (⟨Phase.exiting, false, none, activeSum 0 pairs,
        some (pausedSum pairs + d), true, false⟩,
        some (pausedSum pairs + d + EXIT_ANIMATION_DURATION, id)) := by
    show tick _ _ _ = _
    rw [tick_pending _ _ _ rfl, loop_exiting _ _ _ rfl,
      handleExit_fire (⟨d, id⟩ : Config)
        (pausedSum pairs + d + EXIT_ANIMATION_DURATION) (pausedSum pairs + d)
        ⟨Phase.exiting, false, none, activeSum 0 pairs,
          some (pausedSum pairs + d), false, true⟩ rfl (by omega) rfl]
    rfl
  rw [c3Events, run_append, run_append, h1]
  simp only []
  rw [h2]
  simp [run, hs1, hs2]

/-- Witness for C3: duration 1000 with one hover pause from 200 to 500; the
toast is removed at exactly 300 + 1000 + 300 = 1600 ms after mount. -/
theorem c3_witness :
    (0 : Int) < 1000 ∧ chrono 1000 0 0 [(200, 500)] = true ∧
    run ⟨1000, "t"⟩ (c3Events 1000 [(200, 500)]) initState =
      ({ phase := .exiting, isVisible := false, start := none,
         elapsed := activeSum 0 [(200, 500)],
         exitStart := some (pausedSum [(200, 500)] + 1000), removed := true,
         rafPending := false },
        [(pausedSum [(200, 500)] + 1000 + EXIT_ANIMATION_DURATION, "t")]) :=
  ⟨by decide, by decide,
    c3_total_time_to_removal 1000 "t" [(200, 500)] (by decide) (by decide)⟩

/-- C4: for a non-positive duration with no interaction, the first running
tick transitions straight to "exiting" with zero banked active time, and
onRemove fires exactly one exit window (300 ms) after that transition. -/
theorem c4_nonpositive_duration (d : Int) (id : String) (a b : Int)
    (hd : d ≤ 0) :
    run ⟨d, id⟩ [Event.tick a, Event.tick b,
        Event.tick (b + EXIT_ANIMATION_DURATION)] initState =
      (⟨Phase.exiting, false, none, 0, some b, true, false⟩,
        [(b + EXIT_ANIMATION_DURATION, id)]) := by
  have hs0 : step (⟨d, id⟩ : Config) (Event.tick a) initState =
      (⟨Phase.running, true, none, 0, none, false, true⟩, none) := by
    show tick _ _ _ = _
    rw [tick_pending _ _ _ rfl, loop_entering _ _ _ rfl]
    rfl
  have hs1 : step (⟨d, id⟩ : Config) (Event.tick b)
      (⟨Phase.running, true, none, 0, none, false, true⟩ : ToastState) =
      (⟨Phase.exiting, false, none, 0, some b, false, true⟩, none) := by
    show tick _ _ _ = _
    rw [tick_pending _ _ _ rfl, loop_running _ _ _ rfl,
      handleRunning_expired _ _ _ (by simp; omega)]
    rfl
  have hs2 : step (⟨d, id⟩ : Config) (Event.tick (b + EXIT_ANIMATION_DURATION))
      (⟨Phase.exiting, false, none, 0, some b, false, true⟩ : ToastState) =
      (⟨Phase.exiting, false, none, 0, some b, true, false⟩,
        some (b + EXIT_ANIMATION_DURATION, id)) := by
    show tick _ _ _ = _
    rw [tick_pending _ _ _ rfl, loop_exiting _ _ _ rfl,
      handleExit_fire (⟨d, id⟩ : Config) (b + EXIT_ANIMATION_DURATION) b
        ⟨Phase.exiting, false, none, 0, some b, false, true⟩ rfl (by omega) rfl]
    rfl
  simp [run, hs0, hs1, hs2]

/-- Witness for C4: duration 0, both ticks at time 0; the toast is removed
at exactly 300 ms. -/
theorem c4_witness :
    (0 : Int) ≤ 0 ∧
    run ⟨0, "t"⟩ [Event.tick 0, Event.tick 0,
        Event.tick (0 + EXIT_ANIMATION_DURATION)] initState =
      (⟨Phase.exiting, false, none, 0, some 0, true, false⟩,
        [((0 : Int) + EXIT_ANIMATION_DURATION, "t")]) :=
  ⟨by decide, c4_nonpositive_duration 0 "t" 0 0 (by decide)⟩

/-- C5: invoking handleClose in any phase other than "exiting" immediately
records the close time as the exit-window start, transitions to "exiting"
and hides the toast, leaving every other field unchanged; the tick once the
fixed exit window has elapsed then fires onRemove, regardless of how much
of the duration was left. -/
theorem c5_manual_close (cfg : Config) (s : ToastState) (t t2 : Int)
    (h1 : s.phase ≠ Phase.exiting) (h2 : s.removed = false)
    (h3 : s.rafPending = true) (h4 : EXIT_ANIMATION_DURATION ≤ t2 - t) :
    handleClose t s = { s with
      exitStart := some t
      phase := .exiting
      isVisible := false } ∧
    step cfg (Event.tick t2) (handleClose t s) =
      ({ s with
        exitStart := some t
        phase := .exiting
        isVisible := false
        removed := true
        rafPending := false }, some (t2, cfg.toastId)) := by
  have hc : handleClose t s = { s with
      exitStart := some t
      phase := .exiting
      isVisible := false } := by
    simp [handleClose, h1]
  refine ⟨hc, ?_⟩
  show tick _ _ _ = _
  rw [tick_pending _ _ _ (by simp [hc, h3]), loop_exiting _ _ _ (by simp [hc]),
    handleExit_fire cfg t2 t (handleClose t s) (by simp [hc]) h4
      (by simp [hc, h2])]
  simp [hc]

/-- Witness for C5: manual close of a freshly mounted toast (duration 3000)
at time 500, with the firing tick at time 800. -/
theorem c5_witness :
    handleClose 500 initState = { initState with
      exitStart := some 500
      phase := .exiting
      isVisible := false } ∧
    step ⟨3000, "t"⟩ (Event.tick 800) (handleClose 500 initState) =
      ({ initState with
        exitStart := some 500
        phase := .exiting
        isVisible := false
        removed := true
        rafPending := false }, some (800, Config.toastId ⟨3000, "t"⟩)) :=
  c5_manual_close ⟨3000, "t"⟩ initState 500 800 (by decide) (by decide)
    (by decide) (by decide)

lemma handleExit_cases (cfg : Config) (now : Int) (s : ToastState) :
    handleExit cfg now s = (s, none) ∨
    handleExit cfg now s =
      ({ s with removed := true }, some (now, cfg.toastId)) := by
  rcases Option.eq_none_or_eq_some s.exitStart with hex | ⟨e, hex⟩
  · exact Or.inl (handleExit_unset cfg now s hex)
  · by_cases hle : EXIT_ANIMATION_DURATION ≤ now - e
    · rcases Bool.eq_false_or_eq_true s.removed with hrem | hrem
      · exact Or.inl (handleExit_fired cfg now e s hex hle hrem)
      · exact Or.inr (handleExit_fire cfg now e s hex hle hrem)
    · exact Or.inl (handleExit_early cfg now e s hex hle)

lemma step_exiting_inv (cfg : Config) (ev : Event) (s : ToastState)
    (h : s.phase = Phase.exiting) :
    (step cfg ev s).1.phase = Phase.exiting ∧
    (step cfg ev s).1.isVisible = s.isVisible := by
  cases ev with
  | tick now =>
    cases hraf : s.rafPending with
    | false => simp [step, tick_idle _ _ _ hraf, h]
    | true =>
      show (tick cfg now s).1.phase = Phase.exiting ∧
        (tick cfg now s).1.isVisible = s.isVisible
      rw [tick_pending _ _ _ hraf, loop_exiting _ _ _ h]
      rcases handleExit_cases cfg now s with he | he <;> rw [he] <;>
        simp [h]
  | mouseEnter now => simp [step, handleMouseEnter, h]
  | mouseLeave => simp [step, handleMouseLeave, h]
  | close now => simp [step, handleClose, h]
  | teardown => simp [step, teardown, h]

lemma run_exiting_inv (cfg : Config) (evs : List Event) :
    ∀ s : ToastState, s.phase = Phase.exiting →
      (run cfg evs s).1.phase = Phase.exiting ∧
      (run cfg evs s).1.isVisible = s.isVisible := by
  induction evs with
  | nil => intro s h; exact ⟨h, rfl⟩
  | cons ev rest ih =>
    intro s h
    obtain ⟨h1, h2⟩ := step_exiting_inv cfg ev s h
    obtain ⟨h3, h4⟩ := ih (step cfg ev s).1 h1
    exact ⟨by simpa [run] using h3, by simp [run]; rw [h4, h2]⟩

/-- C6: once the phase is "exiting", hover-enter and hover-leave leave the
state unchanged and no event sequence can move the phase away from
"exiting"; moreover hover-enter mutates state only in the "running" phase
and hover-leave only in the "paused" phase. -/
theorem c6_exiting_absorbs_hover (cfg : Config) (s : ToastState)
    (evs : List Event) (now : Int) :
    (s.phase = Phase.exiting → handleMouseEnter now s = s ∧
      handleMouseLeave s = s ∧ (run cfg evs s).1.phase = Phase.exiting) ∧
    (s.phase ≠ Phase.running → handleMouseEnter now s = s) ∧
    (s.phase ≠ Phase.paused → handleMouseLeave s = s) := by
  refine ⟨fun h => ⟨?_, ?_, (run_exiting_inv cfg evs s h).1⟩,
    fun h => ?_, fun h => ?_⟩
  · simp [handleMouseEnter, h]
  · simp [handleMouseLeave, h]
  · simp [handleMouseEnter, h]
  · simp [handleMouseLeave, h]

/-- Witness for C6 at concrete states: an exiting state absorbs hover events
and stays exiting over a tick; hover-enter is a no-op on a paused state and
hover-leave on a running state. -/
theorem c6_witness :
    (handleMouseEnter 1 ⟨Phase.exiting, false, none, 0, some 0, false, true⟩ =
        ⟨Phase.exiting, false, none, 0, some 0, false, true⟩ ∧
      handleMouseLeave ⟨Phase.exiting, false, none, 0, some 0, false, true⟩ =
        ⟨Phase.exiting, false, none, 0, some 0, false, true⟩ ∧
      (run ⟨3000, "t"⟩ [Event.tick 5]
        ⟨Phase.exiting, false, none, 0, some 0, false, true⟩).1.phase =
        Phase.exiting) ∧
    handleMouseEnter 1 ⟨Phase.paused, true, none, 7, none, false, true⟩ =
      ⟨Phase.paused, true, none, 7, none, false, true⟩ ∧
    handleMouseLeave ⟨Phase.running, true, some 0, 0, none, false, true⟩ =
      ⟨Phase.running, true, some 0, 0, none, false, true⟩ :=
  ⟨(c6_exiting_absorbs_hover ⟨3000, "t"⟩
      ⟨Phase.exiting, false, none, 0, some 0, false, true⟩
      [Event.tick 5] 1).1 (by decide),
    (c6_exiting_absorbs_hover ⟨3000, "t"⟩
      ⟨Phase.paused, true, none, 7, none, false, true⟩ [] 1).2.1 (by decide),
    (c6_exiting_absorbs_hover ⟨3000, "t"⟩
      ⟨Phase.running, true, some 0, 0, none, false, true⟩ [] 1).2.2
      (by decide)⟩

/-- C7 counterexample: the Phase union type of the code has four members,
not five — there is no "removed" phase value. -/
theorem c7_counterexample : Fintype.card Phase ≠ 5 := by decide

/-- C7 (amended): over the four-state Phase enum of the code, canClose is
false exactly on "exiting" and true on the other three phases. -/
theorem c7_canClose_iff_not_exiting :
    canClose Phase.entering = true ∧ canClose Phase.running = true ∧
    canClose Phase.paused = true ∧ canClose Phase.exiting = false ∧
    Fintype.card Phase = 4 := by decide

/-- C8: isVisible starts false, is set to true exactly by the scheduling
tick that performs the "entering" to "running" transition, is never changed
by the hover handlers, remains true while the phase stays in running or
paused, is set to false by whichever step first enters "exiting", and can
never become true again once the phase is "exiting". -/
theorem c8_isVisible_lifecycle (cfg : Config) :
    initState.isVisible = false ∧
    (∀ (now : Int) (s : ToastState), s.phase = Phase.entering →
      s.rafPending = true →
      (step cfg (Event.tick now) s).1.phase = Phase.running ∧
      (step cfg (Event.tick now) s).1.isVisible = true) ∧
    (∀ (now : Int) (s : ToastState),
      (handleMouseEnter now s).isVisible = s.isVisible ∧
      (handleMouseLeave s).isVisible = s.isVisible) ∧
    (∀ (ev : Event) (s : ToastState), s.phase ≠ Phase.exiting →
      (step cfg ev s).1.phase = Phase.exiting →
      (step cfg ev s).1.isVisible = false) ∧
    (∀ (ev : Event) (s : ToastState), s.isVisible = true →
      ((step cfg ev s).1.phase = Phase.running ∨
        (step cfg ev s).1.phase = Phase.paused) →
      (step cfg ev s).1.isVisible = true) ∧
    (∀ (evs : List Event) (s : ToastState), s.phase = Phase.exiting →
      s.isVisible = false → (run cfg evs s).1.isVisible = false) := by
  refine ⟨rfl, ?_, ?_, ?_, ?_, ?_⟩
  · intro now s h1 h2
    show (tick cfg now s).1.phase = Phase.running ∧
      (tick cfg now s).1.isVisible = true
    rw [tick_pending _ _ _ h2, loop_entering _ _ _ h1]
    exact ⟨rfl, rfl⟩
  · intro now s
    obtain ⟨ph, vis, st, el, ex, rem, raf⟩ := s
    constructor
    · cases ph <;> cases st <;> simp [handleMouseEnter]
    · cases ph <;> simp [handleMouseLeave]
  · intro ev s h1 h2
    obtain ⟨ph, vis, st, el, ex, rem, raf⟩ := s
    cases ev with
    | tick now =>
      cases raf with
      | false => simp_all [step, tick]
      | true =>
        cases ph with
        | entering => simp_all [step, tick, loop, setPhase]
        | running =>
          by_cases hd : cfg.duration ≤ el + (now - Option.getD st now)
          · simp only [step]
            rw [tick_pending _ _ _ rfl, loop_running _ _ _ rfl,
              handleRunning_expired _ _ _ (by simpa using hd)]
          · simp only [step] at h2
            rw [tick_pending _ _ _ rfl, loop_running _ _ _ rfl,
              handleRunning_live _ _ _ (by simpa using hd)] at h2
            simp at h2
        | paused => simp_all [step, tick, loop]
        | exiting => simp_all
    | mouseEnter now =>
      cases ph <;> cases st <;> simp_all [step, handleMouseEnter]
    | mouseLeave => cases ph <;> simp_all [step, handleMouseLeave]
    | close now => cases ph <;> simp_all [step, handleClose]
    | teardown => simp_all [step, teardown]
  · intro ev s h1 h2
    obtain ⟨ph, vis, st, el, ex, rem, raf⟩ := s
    cases ev with
    | tick now =>
      cases raf with
      | false => simp_all [step, tick]
      | true =>
        cases ph with
        | entering => simp_all [step, tick, loop, setPhase]
        | running =>
          by_cases hd : cfg.duration ≤ el + (now - Option.getD st now)
          · simp only [step] at h2
            rw [tick_pending _ _ _ rfl, loop_running _ _ _ rfl,
              handleRunning_expired _ _ _ (by simpa using hd)] at h2
            simp at h2
          · simp only [step]
            rw [tick_pending _ _ _ rfl, loop_running _ _ _ rfl,
              handleRunning_live _ _ _ (by simpa using hd)]
            simpa using h1
        | paused => simp_all [step, tick, loop]
        | exiting =>
          have hinv := step_exiting_inv cfg (Event.tick now)
            ⟨Phase.exiting, vis, st, el, ex, rem, true⟩ rfl
          rw [hinv.2]
          exact h1
    | mouseEnter now =>
      cases ph <;> cases st <;> simp_all [step, handleMouseEnter]
    | mouseLeave => cases ph <;> simp_all [step, handleMouseLeave]
    | close now => cases ph <;> simp_all [step, handleClose]
    | teardown => simp_all [step, teardown]
  · intro evs s h1 h2
    rw [(run_exiting_inv cfg evs s h1).2, h2]

/-- Witness for C8 at concrete inputs: the first tick shows the toast, a
manual close hides it, a live running tick keeps it visible, and it stays
hidden across ticks once exiting. -/
theorem c8_witness :
    ((step ⟨3000, "t"⟩ (Event.tick 0) initState).1.phase = Phase.running ∧
      (step ⟨3000, "t"⟩ (Event.tick 0) initState).1.isVisible = true) ∧
    (step ⟨3000, "t"⟩ (Event.close 5) initState).1.isVisible = false ∧
    (step ⟨3000, "t"⟩ (Event.tick 7)
      ⟨Phase.running, true, some 0, 0, none, false, true⟩).1.isVisible =
      true ∧
    (run ⟨3000, "t"⟩ [Event.tick 9]
      ⟨Phase.exiting, false, none, 0, some 0, false, true⟩).1.isVisible =
      false :=
  ⟨(c8_isVisible_lifecycle ⟨3000, "t"⟩).2.1 0 initState rfl rfl,
    (c8_isVisible_lifecycle ⟨3000, "t"⟩).2.2.2.1 (Event.close 5) initState
      (by decide) (by decide),
    (c8_isVisible_lifecycle ⟨3000, "t"⟩).2.2.2.2.1 (Event.tick 7)
      ⟨Phase.running, true, some 0, 0, none, false, true⟩ rfl (by decide),
    (c8_isVisible_lifecycle ⟨3000, "t"⟩).2.2.2.2.2 [Event.tick 9]
      ⟨Phase.exiting, false, none, 0, some 0, false, true⟩ rfl rfl⟩

/-- C9: handleMouseEnter invoked in the "running" phase with no recorded
segment start returns early and leaves the state entirely unchanged; such a
state is reachable, because the tick that performs the entering-to-running
transition does not record a segment start. -/
theorem c9_mouseEnter_unset_start (cfg : Config) :
    (∀ (now : Int) (s : ToastState), s.phase = Phase.running →
      s.start = none → handleMouseEnter now s = s) ∧
    (∀ t : Int, (step cfg (Event.tick t) initState).1.phase = Phase.running ∧
      (step cfg (Event.tick t) initState).1.start = none) := by
  constructor
  · intro now s h1 h2
    simp [handleMouseEnter, h1, h2]
  · intro t
    show (tick cfg t initState).1.phase = Phase.running ∧
      (tick cfg t initState).1.start = none
    rw [tick_pending _ _ _ rfl, loop_entering _ _ _ rfl]
    exact ⟨rfl, rfl⟩

/-- Witness for C9: hover-enter right after the entering-to-running tick is
a no-op. -/
theorem c9_witness :
    handleMouseEnter 5 ⟨Phase.running, true, none, 0, none, false, true⟩ =
      ⟨Phase.running, true, none, 0, none, false, true⟩ :=
  (c9_mouseEnter_unset_start ⟨3000, "t"⟩).1 5
    ⟨Phase.running, true, none, 0, none, false, true⟩ rfl rfl

end Toast

namespace RAF

/-!
Shallow embedding of createRAFTimer from src/utils/rafTimer.ts. A timer
keeps re-registering an animate callback through requestAnimationFrame
until the elapsed time since its creation reaches the delay, at which point
it runs its payload callback once. The browser-side frame queue for the one
ref cell is modelled explicitly, so that "at most one pending callback per
ref" is a provable statement rather than an assumption of the model.
-/

/-- One pending animate frame of a timer chain: the raf id under which it is
registered, the startTime captured by createRAFTimer, and the delay. -/
structure Frame where
  id : Nat
  start : Int
  delay : Int
deriving DecidableEq, Repr

/-- Scheduling state around one ref cell: the pending animate frames, the
raf id currently stored in ref.current, a fresh-id counter, and the times at
which the payload callback fired. -/
structure Sys where
  frames : List Frame
  refCur : Option Nat
  nextId : Nat
  fires : List Int
deriving DecidableEq, Repr

/-- State before any timer is created through the ref. -/
def initSys : Sys :=
  { frames := [], refCur := none, nextId := 0, fires := [] }

/-- requestAnimationFrame(animate) with ref.current := the new frame id. -/
def rafSchedule (start delay : Int) (sys : Sys) : Sys :=
  { sys with
    frames := sys.frames ++ [⟨sys.nextId, start, delay⟩]
    refCur := some sys.nextId
    nextId := sys.nextId + 1 }

/-- cancelAnimationFrame(id): drop the pending frame with that id, if any. -/
def cancelFrame (id : Nat) (sys : Sys) : Sys :=
  { sys with frames := sys.frames.filter (fun f => f.id != id) }

/-- createRAFTimer: if ref.current holds an id, cancel it and clear the ref
first; then capture startTime := now and schedule animate. -/
def create (now delay : Int) (sys : Sys) : Sys :=
  let sys1 :=
    match sys.refCur with
    | some id => { cancelFrame id sys with refCur := none }
    | none => sys
  rafSchedule now delay sys1

/-- The browser runs pending frame id at time t: animate computes the
elapsed time since startTime; when it has reached the delay it runs the
payload callback and stops, otherwise it re-registers itself. -/
def fireFrame (t : Int) (id : Nat) (sys : Sys) : Sys :=
  match sys.frames.find? (fun f => f.id == id) with
  | none => sys
  | some f =>
    let sys1 := cancelFrame id sys
    if f.delay ≤ t - f.start then { sys1 with fires := sys1.fires ++ [t] }
    else rafSchedule f.start f.delay sys1

/-- The cancel function returned by createRAFTimer: cancelAnimationFrame on
ref.current and clear the ref. -/
def cancel (sys : Sys) : Sys :=
  match sys.refCur with
  | some id => { cancelFrame id sys with refCur := none }
  | none => sys

/-- External stimulus of the timer system: createRAFTimer, a browser frame
at a time, or the returned cancel function. -/
inductive REvent where
  | create (now delay : Int)
  | frame (t : Int) (id : Nat)
  | cancelEv
deriving DecidableEq, Repr

/-- Apply one event. -/
def rstep : REvent → Sys → Sys
  | .create now delay, sys => create now delay sys
  | .frame t id, sys => fireFrame t id sys
  | .cancelEv, sys => cancel sys

/-- Run a sequence of events. -/
def rrun : List REvent → Sys → Sys
  | [], sys => sys
  | ev :: rest, sys => rrun rest (rstep ev sys)

/-- Well-formedness of the ref cell: at most one frame is pending, and when
one is pending its id is the one stored in ref.current. -/
def Inv (sys : Sys) : Bool :=
  match sys.frames with
  | [] => true
  | [f] => sys.refCur == some f.id
  | _ => false

lemma inv_length (sys : Sys) (h : Inv sys = true) :
    sys.frames.length ≤ 1 := by
  unfold Inv at h
  rcases sys with ⟨frames, refCur, nextId, fires⟩
  match frames with
  | [] => simp
  | [f] => simp
  | a :: b :: rest => simp at h

lemma create_eq_of_inv (now delay : Int) (sys : Sys) (h : Inv sys = true) :
    create now delay sys =
      { frames := [⟨sys.nextId, now, delay⟩]
        refCur := some sys.nextId
        nextId := sys.nextId + 1
        fires := sys.fires } := by
  rcases sys with ⟨frames, refCur, nextId, fires⟩
  rcases frames with _ | ⟨f, rest⟩
  · rcases refCur with _ | fid <;>
      simp [create, cancelFrame, rafSchedule]
  · rcases rest with _ | ⟨b, rest2⟩
    · have hrc : refCur = some f.id := by
        simpa [Inv] using h
      subst hrc
      simp [create, cancelFrame, rafSchedule]
    · simp [Inv] at h

lemma create_of_inv (now delay : Int) (sys : Sys) (h : Inv sys = true) :
    (create now delay sys).frames = [⟨sys.nextId, now, delay⟩] := by
  rw [create_eq_of_inv now delay sys h]

lemma fireFrame_empty (t : Int) (fid : Nat) (sys : Sys)
    (h : sys.frames = []) : fireFrame t fid sys = sys := by
  simp [fireFrame, h]

lemma cancel_of_inv (sys : Sys) (h : Inv sys = true) :
    (cancel sys).frames = [] ∧ (cancel sys).fires = sys.fires := by
  rcases sys with ⟨frames, refCur, nextId, fires⟩
  rcases frames with _ | ⟨f, rest⟩
  · rcases refCur with _ | fid <;> simp [cancel, cancelFrame]
  · rcases rest with _ | ⟨b, rest2⟩
    · have hrc : refCur = some f.id := by
        simpa [Inv] using h
      subst hrc
      simp [cancel, cancelFrame]
    · simp [Inv] at h

lemma rstep_inv (ev : REvent) (sys : Sys) (h : Inv sys = true) :
    Inv (rstep ev sys) = true := by
  cases ev with
  | create now delay =>
    show Inv (create now delay sys) = true
    rw [create_eq_of_inv now delay sys h]
    simp [Inv]
  | frame t fid =>
    show Inv (fireFrame t fid sys) = true
    rcases sys with ⟨frames, refCur, nextId, fires⟩
    rcases frames with _ | ⟨f, rest⟩
    · simp [fireFrame, List.find?, Inv]
    · rcases rest with _ | ⟨b, rest2⟩
      · have hrc : refCur = some f.id := by
          simpa [Inv] using h
        subst hrc
        by_cases hid : f.id == fid
        · have hbne : (f.id != fid) = false := by simp [bne, hid]
          simp only [fireFrame, List.find?, hid, cancelFrame]
          split_ifs <;> simp [rafSchedule, Inv, List.filter, hbne]
        · simp only [fireFrame, List.find?, hid]
          simpa [Inv] using h
      · simp [Inv] at h
  | cancelEv =>
    show Inv (cancel sys) = true
    have hc := (cancel_of_inv sys h).1
    unfold Inv
    rw [hc]

lemma rrun_inv (evs : List REvent) :
    ∀ sys : Sys, Inv sys = true → Inv (rrun evs sys) = true := by
  induction evs with
  | nil => intro sys h; exact h
  | cons ev rest ih => intro sys h; exact ih (rstep ev sys) (rstep_inv ev sys h)

lemma rrun_frames_only (ts : List (Int × Nat)) :
    ∀ sys : Sys, sys.frames = [] →
      rrun (ts.map fun p => REvent.frame p.1 p.2) sys = sys := by
  induction ts with
  | nil => intro sys _; rfl
  | cons p rest ih =>
    intro sys h
    show rrun _ (fireFrame p.1 p.2 sys) = sys
    rw [fireFrame_empty p.1 p.2 sys h]
    exact ih sys h

/-- C10: for the one ref cell, at most one animate frame is ever pending:
createRAFTimer cancels whatever the ref held before scheduling, so a fresh
create leaves exactly one pending frame carrying its startTime and delay; a
browser frame adds a firing only when the elapsed time since the recorded
startTime has reached the delay (otherwise it re-registers the same
startTime and delay); and the returned cancel function empties the pending
queue so that no later frames can ever fire the callback. -/
theorem c10_rafTimer_single_pending_and_cancellable :
    (∀ evs : List REvent, (rrun evs initSys).frames.length ≤ 1) ∧
    (∀ (now delay : Int) (sys : Sys), Inv sys = true →
      (create now delay sys).frames = [⟨sys.nextId, now, delay⟩]) ∧
    (∀ (t : Int) (fid : Nat) (sys : Sys),
      (fireFrame t fid sys).fires ≠ sys.fires →
      ∃ f, sys.frames.find? (fun g => g.id == fid) = some f ∧
        f.delay ≤ t - f.start ∧
        (fireFrame t fid sys).fires = sys.fires ++ [t]) ∧
    (∀ (t : Int) (fid : Nat) (sys : Sys) (f : Frame),
      sys.frames.find? (fun g => g.id == fid) = some f →
      ¬ f.delay ≤ t - f.start →
      (fireFrame t fid sys).frames =
        (cancelFrame fid sys).frames ++ [⟨sys.nextId, f.start, f.delay⟩]) ∧
    (∀ sys : Sys, Inv sys = true →
      (cancel sys).frames = [] ∧ (cancel sys).fires = sys.fires ∧
      ∀ ts : List (Int × Nat),
        (rrun (ts.map fun p => REvent.frame p.1 p.2) (cancel sys)).fires =
          sys.fires) := by
  refine ⟨?_, ?_, ?_, ?_, ?_⟩
  · intro evs
    exact inv_length _ (rrun_inv evs initSys rfl)
  · intro now delay sys h
    exact create_of_inv now delay sys h
  · intro t fid sys hne
    rcases hf : sys.frames.find? (fun g => g.id == fid) with _ | f
    · exact absurd (by simp [fireFrame, hf]) hne
    · by_cases hd : f.delay ≤ t - f.start
      · exact ⟨f, hf, hd, by simp [fireFrame, hf, hd, cancelFrame]⟩
      · exact absurd (by simp [fireFrame, hf, hd, rafSchedule, cancelFrame])
          hne
  · intro t fid sys f hf hd
    simp [fireFrame, hf, hd, rafSchedule, cancelFrame]
  · intro sys h
    obtain ⟨h1, h2⟩ := cancel_of_inv sys h
    refine ⟨h1, h2, fun ts => ?_⟩
    rw [rrun_frames_only ts (cancel sys) h1, h2]

/-- Witness for C10 at a concrete timer: create at time 0 with delay 100,
a too-early frame at 50 re-registers, the frame at 100 fires, and cancel
leaves nothing pending so later frames never fire. -/
theorem c10_witness :
    (create 0 100 initSys).frames = [⟨Sys.nextId initSys, 0, 100⟩] ∧
    (∃ f, (⟨[⟨0, 0, 100⟩], some 0, 1, []⟩ : Sys).frames.find?
        (fun g => g.id == 0) = some f ∧
      f.delay ≤ (100 : Int) - f.start ∧
      (fireFrame 100 0 ⟨[⟨0, 0, 100⟩], some 0, 1, []⟩).fires =
        Sys.fires ⟨[⟨0, 0, 100⟩], some 0, 1, []⟩ ++ [100]) ∧
    (fireFrame 50 0 ⟨[⟨0, 0, 100⟩], some 0, 1, []⟩).frames =
      (cancelFrame 0 ⟨[⟨0, 0, 100⟩], some 0, 1, []⟩).frames ++
        [⟨Sys.nextId ⟨[⟨0, 0, 100⟩], some 0, 1, []⟩, 0, 100⟩] ∧
    (cancel ⟨[⟨0, 0, 100⟩], some 0, 1, []⟩).frames = [] ∧
    (cancel ⟨[⟨0, 0, 100⟩], some 0, 1, []⟩).fires =
      Sys.fires ⟨[⟨0, 0, 100⟩], some 0, 1, []⟩ ∧
    (rrun ([((150 : Int), (0 : Nat))].map fun p => REvent.frame p.1 p.2)
        (cancel ⟨[⟨0, 0, 100⟩], some 0, 1, []⟩)).fires =
      Sys.fires ⟨[⟨0, 0, 100⟩], some 0, 1, []⟩ :=
  ⟨c10_rafTimer_single_pending_and_cancellable.2.1 0 100 initSys (by decide),
    c10_rafTimer_single_pending_and_cancellable.2.2.1 100 0
      ⟨[⟨0, 0, 100⟩], some 0, 1, []⟩ (by decide),
    c10_rafTimer_single_pending_and_cancellable.2.2.2.1 50 0
      ⟨[⟨0, 0, 100⟩], some 0, 1, []⟩ ⟨0, 0, 100⟩ (by decide) (by decide),
    (c10_rafTimer_single_pending_and_cancellable.2.2.2.2
      ⟨[⟨0, 0, 100⟩], some 0, 1, []⟩ (by decide)).1,
    (c10_rafTimer_single_pending_and_cancellable.2.2.2.2
      ⟨[⟨0, 0, 100⟩], some 0, 1, []⟩ (by decide)).2.1,
    (c10_rafTimer_single_pending_and_cancellable.2.2.2.2
      ⟨[⟨0, 0, 100⟩], some 0, 1, []⟩ (by decide)).2.2 [(150, 0)]⟩

end RAF
